import Mathlib

/-!
# Prefix-partitioned CRL lookup (`crl_partitioning.go`)

A shallow embedding of `fetchCRL` and `checkRevocation`.

* Go strings and byte slices are lists of byte values (`List Nat`, each element `< 256`);
  `len`, slicing and the `strings` helpers act on bytes, as in Go.
* The Go `(bool, error)` result is `Bool × Option GoError`, `none` being `nil`.
* Everything the program reaches outside the repository (the HTTP transport, `pem.Decode`,
  `x509.ParseCRL`, the Unicode case table behind `strings.ToLower`) is a field of `World`.
* Every `http.Get` issued is recorded, in order, in the `requests` of the returned `Traced`.
-/

namespace CrlPartitioning

/-- A Go string: an immutable sequence of bytes. -/
abbrev GoString := List Nat

/-- The bytes of an ASCII literal. -/
def ascii (s : String) : GoString := s.data.map Char.toNat

/-- A Go `error` value. -/
inductive GoError where
  /-- the value built by `fmt.Errorf` with the formatted message -/
  | errorf (msg : GoString)
  /-- an error value handed back by a library call (`net/http`, `io`, `crypto/x509`) -/
  | lib (msg : GoString)
  deriving DecidableEq, Repr

/-- The `pkix.RevokedCertificate` record; `SerialNumber` is a `*big.Int`, of either sign and
never nil in a decoded list. -/
structure RevokedCertificate where
  SerialNumber : Int
  RevocationTime : Int
  deriving DecidableEq, Repr

/-- The `pkix.TBSCertificateList` record, restricted to the field the program reads. -/
structure TBSCertificateList where
  RevokedCertificates : List RevokedCertificate
  deriving DecidableEq, Repr

/-- The `pkix.CertificateList` record. -/
structure CertificateList where
  TBSCertList : TBSCertificateList
  deriving DecidableEq, Repr

/-- The `pem.Block` record, restricted to the field the program reads. -/
structure Block where
  Bytes : List Nat
  deriving DecidableEq, Repr

/-- The `http.Response` fields the program reads; `Body` is what `io.ReadAll(resp.Body)`
returns. -/
structure Response where
  StatusCode : Int
  Status : GoString
  Body : Except GoError (List Nat)

/-- The library calls the program makes. -/
structure World where
  /-- the call `http.Get(url)` -/
  httpGet : GoString → Except GoError Response
  /-- the first result of `pem.Decode(data)`; `none` is the nil block -/
  pemDecode : List Nat → Option Block
  /-- the call `x509.ParseCRL(data)` -/
  parseCRL : List Nat → Except GoError CertificateList
  /-- the call `strings.Map(unicode.ToLower, s)`, which `strings.ToLower` makes for a string
  holding a byte `≥ 0x80` -/
  mapToLower : GoString → GoString

/-- A returned value together with the arguments of the `http.Get` calls made, in order. -/
structure Traced (α : Type) where
  requests : List GoString
  ret : α

/-! ## `strings` and `fmt` -/

/-- The byte `c` with `A`..`Z` shifted to `a`..`z`. -/
def lowerASCII (c : Nat) : Nat := if 65 ≤ c ∧ c ≤ 90 then c + 32 else c

/-- The function `strings.ToLower`: an all-ASCII string has `A`..`Z` shifted to `a`..`z`, any
other string goes through the Unicode table. -/
def ToLower (w : World) (s : GoString) : GoString :=
  if s.all (fun c => decide (c < 128)) then s.map lowerASCII else w.mapToLower s

/-- The function `strings.HasPrefix`. -/
def HasPrefix (s pre : GoString) : Bool :=
  decide (pre.length ≤ s.length ∧ s.take pre.length = pre)

/-- The function `strings.TrimPrefix`. -/
def TrimPrefix (s pre : GoString) : GoString :=
  if HasPrefix s pre then s.drop pre.length else s

/-- The function `strings.TrimLeft` for a cutset of one ASCII byte `c`. -/
def TrimLeft (s : GoString) (c : Nat) : GoString :=
  s.dropWhile (fun b => b == c)

/-- The function `strings.TrimRight` for a cutset of one ASCII byte `c`. -/
def TrimRight (s : GoString) (c : Nat) : GoString :=
  (s.reverse.dropWhile (fun b => b == c)).reverse

/-- The lowercase hexadecimal digit character of a value below 16. -/
def hexDigit (d : Nat) : Nat := if d < 10 then 48 + d else 87 + d

/-- Base-16 digits of `n`, least significant first, none for zero. The first argument bounds
the recursion; `n` itself is enough (`hexDigitsLE_eq_digits`). -/
def hexDigitsLE : Nat → Nat → List Nat
  | 0, _ => []
  | fuel + 1, n => if n = 0 then [] else n % 16 :: hexDigitsLE fuel (n / 16)

/-- Lowercase hexadecimal text of a natural number, `"0"` for zero. -/
def formatNatHex (n : Nat) : GoString :=
  if n = 0 then [48] else (hexDigitsLE n n).reverse.map hexDigit

/-- The call `fmt.Sprintf("%x", x)` for a `*big.Int`: a minus sign for a negative value, then
the lowercase hexadecimal digits of the magnitude. -/
def sprintfHex (x : Int) : GoString :=
  if x < 0 then 45 :: formatNatHex x.natAbs else formatNatHex x.natAbs

/-! ## The program -/

/-- The function `fetchCRL`. -/
def fetchCRL (w : World) (url : GoString) : Traced (Except GoError CertificateList) :=
  { requests := [url],
    ret :=
      match w.httpGet url with
      | .error err => .error err
      | .ok resp =>
        if resp.StatusCode ≠ 200 then
          .error (.errorf (ascii "failed to fetch CRL: " ++ resp.Status))
        else
          match resp.Body with
          | .error err => .error err
          | .ok data =>
            let data := match w.pemDecode data with
              | some p => p.Bytes
              | none => data
            match w.parseCRL data with
            | .error err => .error err
            | .ok crl => .ok crl }

/-- The `for ... range crl.TBSCertList.RevokedCertificates` loop of `checkRevocation`:
`true` at the first entry whose trimmed hexadecimal text equals `trimmedSerial`. -/
def rangeRevoked (trimmedSerial : GoString) : List RevokedCertificate → Bool
  | [] => false
  | revoked :: rest =>
    let revokedHex := TrimLeft (sprintfHex revoked.SerialNumber) 48
    if revokedHex = trimmedSerial then true else rangeRevoked trimmedSerial rest

/-- The function `checkRevocation`. -/
def checkRevocation (w : World) (serial baseURL : GoString) :
    Traced (Bool × Option GoError) :=
  let serial := TrimPrefix (ToLower w serial) (ascii "0x")
  if serial.length < 2 then
    { requests := [], ret := (false, some (.errorf (ascii "serial too short"))) }
  else
    let key := serial.take 2
    let url := TrimRight baseURL 47 ++ ascii "/" ++ key ++ ascii ".crl"
    let fetched := fetchCRL w url
    match fetched.ret with
    | .error err => { requests := fetched.requests, ret := (false, some err) }
    | .ok crl =>
      let trimmedSerial := TrimLeft serial 48
      { requests := fetched.requests,
        ret := (rangeRevoked trimmedSerial crl.TBSCertList.RevokedCertificates, none) }

/-! ## Vocabulary of the specification -/

/-- The normalised serial: lowercased, then one leading `0x` removed. -/
def normalise (w : World) (serial : GoString) : GoString :=
  TrimPrefix (ToLower w serial) (ascii "0x")

/-- The partition URL of a normalised serial `n`. -/
def partitionURL (baseURL n : GoString) : GoString :=
  TrimRight baseURL 47 ++ ascii "/" ++ n.take 2 ++ ascii ".crl"

/-- A hexadecimal digit character of either case. -/
def isHexDigit (c : Nat) : Bool :=
  (decide (48 ≤ c) && decide (c ≤ 57)) || (decide (97 ≤ c) && decide (c ≤ 102)) ||
    (decide (65 ≤ c) && decide (c ≤ 70))

/-- A character among `0`..`9` and `a`..`f`. -/
def isLowerHexDigit (c : Nat) : Bool :=
  (decide (48 ≤ c) && decide (c ≤ 57)) || (decide (97 ≤ c) && decide (c ≤ 102))

/-- The value of a hexadecimal digit character. -/
def hexDigitValue (c : Nat) : Nat :=
  if 48 ≤ c ∧ c ≤ 57 then c - 48
  else if 97 ≤ c ∧ c ≤ 102 then c - 87
  else if 65 ≤ c ∧ c ≤ 70 then c - 55
  else 0

/-- The integer a string of hexadecimal digits denotes. -/
def hexValue (h : GoString) : Nat :=
  h.foldl (fun acc c => 16 * acc + hexDigitValue c) 0

/-- The optional prefixes of a serial: none, `0x` or `0X`. -/
def isSerialPrefix (p : GoString) : Prop :=
  p = [] ∨ p = ascii "0x" ∨ p = ascii "0X"

/-! ## A concrete deployment

The scenario of the repository's tests: one partition `ab.crl` holding the revoked serial
`ab12`, every other path answered `404 Not Found`. -/

/-- The body served for `ab.crl`: a DER-encoded CRL of issuer `Test CA` revoking serial
`0xab12`. -/
def demoBody : List Nat :=
  [48, 116, 48, 92, 2, 1, 1, 48, 13, 6, 9, 42, 134, 72, 134, 247, 13, 1, 1, 11, 5, 0, 48, 18,
   49, 16, 48, 14, 6, 3, 85, 4, 3, 12, 7, 84, 101, 115, 116, 32, 67, 65, 23, 13, 50, 54, 48,
   49, 48, 49, 48, 48, 48, 48, 48, 48, 90, 23, 13, 50, 54, 48, 49, 48, 50, 48, 48, 48, 48, 48,
   48, 90, 48, 22, 48, 20, 2, 3, 0, 171, 18, 23, 13, 50, 54, 48, 49, 48, 49, 48, 48, 48, 48,
   48, 48, 90, 48, 13, 6, 9, 42, 134, 72, 134, 247, 13, 1, 1, 11, 5, 0, 3, 5, 0, 1, 2, 3, 4]

/-- The body `demoBody` in PEM armour. -/
def demoArmoured : List Nat :=
  ascii "-----BEGIN X509 CRL-----\n" ++
  ascii "MHQwXAIBATANBgkqhkiG9w0BAQsFADASMRAwDgYDVQQDDAdUZXN0IENBFw0yNjAx\n" ++
  ascii "MDEwMDAwMDBaFw0yNjAxMDIwMDAwMDBaMBYwFAIDAKsSFw0yNjAxMDEwMDAwMDBa\n" ++
  ascii "MA0GCSqGSIb3DQEBCwUAAwUAAQIDBA==\n" ++
  ascii "-----END X509 CRL-----\n"

/-- The CRL that `demoBody` decodes to: one entry, serial `0xab12`. -/
def demoCRL : CertificateList :=
  { TBSCertList := { RevokedCertificates := [{ SerialNumber := 0xab12, RevocationTime := 0 }] } }

/-- The test server and decoders; a second server, `http://pem/crls`, serves the same
partition in PEM armour. -/
def demoWorld : World :=
  { httpGet := fun url =>
      if url = ascii "http://x/crls/ab.crl" then
        .ok { StatusCode := 200, Status := ascii "200 OK", Body := .ok demoBody }
      else if url = ascii "http://pem/crls/ab.crl" then
        .ok { StatusCode := 200, Status := ascii "200 OK", Body := .ok demoArmoured }
      else
        .ok { StatusCode := 404, Status := ascii "404 Not Found",
              Body := .ok (ascii "404 page not found\n") },
    pemDecode := fun data => if data = demoArmoured then some { Bytes := demoBody } else none,
    parseCRL := fun data =>
      if data = demoBody ∨ data = demoArmoured then .ok demoCRL
      else .error (.lib (ascii "x509: malformed crl")),
    mapToLower := fun s => s }

/-! ## A partition served in two encodings

A CRL whose issuer common name carries a PEM block of its own, served raw by one server and
PEM-armoured by another. -/

/-- A DER-encoded CRL revoking serial `0xab12`; its issuer common name is the text `CA`, a line
break, and a PEM block of type `A` with payload `30 00`. -/
def nestedDER : List Nat :=
  [48, 129, 151, 48, 127, 2, 1, 1, 48, 13, 6, 9, 42, 134, 72, 134, 247, 13, 1, 1, 11, 5, 0, 48,
   53, 49, 51, 48, 49, 6, 3, 85, 4, 3, 12, 42, 67, 65, 10, 45, 45, 45, 45, 45, 66, 69, 71, 73,
   78, 32, 65, 45, 45, 45, 45, 45, 10, 77, 65, 65, 61, 10, 45, 45, 45, 45, 45, 69, 78, 68, 32,
   65, 45, 45, 45, 45, 45, 10, 23, 13, 50, 54, 48, 49, 48, 49, 48, 48, 48, 48, 48, 48, 90, 23,
   13, 50, 54, 48, 49, 48, 50, 48, 48, 48, 48, 48, 48, 90, 48, 22, 48, 20, 2, 3, 0, 171, 18,
   23, 13, 50, 54, 48, 49, 48, 49, 48, 48, 48, 48, 48, 48, 90, 48, 13, 6, 9, 42, 134, 72, 134,
   247, 13, 1, 1, 11, 5, 0, 3, 5, 0, 1, 2, 3, 4]

/-- The same CRL in PEM armour (`nestedDER` in base64 between `X509 CRL` lines). -/
def armouredBody : List Nat :=
  ascii "-----BEGIN X509 CRL-----\n" ++
  ascii "MIGXMH8CAQEwDQYJKoZIhvcNAQELBQAwNTEzMDEGA1UEAwwqQ0EKLS0tLS1CRUdJ\n" ++
  ascii "TiBBLS0tLS0KTUFBPQotLS0tLUVORCBBLS0tLS0KFw0yNjAxMDEwMDAwMDBaFw0y\n" ++
  ascii "NjAxMDIwMDAwMDBaMBYwFAIDAKsSFw0yNjAxMDEwMDAwMDBaMA0GCSqGSIb3DQEB\n" ++
  ascii "CwUAAwUAAQIDBA==\n" ++
  ascii "-----END X509 CRL-----\n"

/-- Two servers for partition `ab`, and the decoders on the byte strings they meet:
`pem.Decode` finds the armour of `armouredBody`, and in `nestedDER` the block that follows
the line break in the issuer name; `x509.ParseCRL` accepts the CRL and rejects the two-byte
payload `30 00`. -/
def nestedWorld : World :=
  { httpGet := fun url =>
      if url = ascii "http://pem/ab.crl" then
        .ok { StatusCode := 200, Status := ascii "200 OK", Body := .ok armouredBody }
      else if url = ascii "http://der/ab.crl" then
        .ok { StatusCode := 200, Status := ascii "200 OK", Body := .ok nestedDER }
      else
        .ok { StatusCode := 404, Status := ascii "404 Not Found",
              Body := .ok (ascii "404 page not found\n") },
    pemDecode := fun data =>
      if data = armouredBody then some { Bytes := nestedDER }
      else if data = nestedDER then some { Bytes := [48, 0] }
      else none,
    parseCRL := fun data =>
      if data = nestedDER ∨ data = armouredBody then .ok demoCRL
      else .error (.lib (ascii "asn1: syntax error: sequence truncated")),
    mapToLower := fun s => s }

/-! ## Hexadecimal text -/

theorem hexDigitsLE_eq_digits (fuel : Nat) : ∀ n, n ≤ fuel → hexDigitsLE fuel n = Nat.digits 16 n := by
  induction fuel with
  | zero =>
    intro n hn
    have : n = 0 := by omega
    subst this
    simp [hexDigitsLE]
  | succ fuel ih =>
    intro n hn
    by_cases h0 : n = 0
    · subst h0
      simp [hexDigitsLE]
    · have hpos : 0 < n := Nat.pos_of_ne_zero h0
      have hdiv : n / 16 ≤ fuel := by omega
      rw [Nat.digits_def' (by decide) hpos]
      simp [hexDigitsLE, h0, ih _ hdiv]

theorem hexDigitValue_hexDigit {d : Nat} (hd : d < 16) : hexDigitValue (hexDigit d) = d := by
  unfold hexDigit hexDigitValue
  split_ifs <;> omega

theorem hexDigit_hexDigitValue {c : Nat} (hc : isLowerHexDigit c = true) :
    hexDigit (hexDigitValue c) = c := by
  unfold isLowerHexDigit at hc
  simp only [Bool.or_eq_true, Bool.and_eq_true, decide_eq_true_eq] at hc
  unfold hexDigit hexDigitValue
  split_ifs <;> omega

theorem hexDigitValue_lt {c : Nat} : hexDigitValue c < 16 := by
  unfold hexDigitValue
  split_ifs <;> omega

theorem hexValue_append_singleton (xs : GoString) (c : Nat) :
    hexValue (xs ++ [c]) = 16 * hexValue xs + hexDigitValue c := by
  simp [hexValue, List.foldl_append]

theorem hexValue_reverse_map_hexDigit (L : List Nat) (hL : ∀ d ∈ L, d < 16) :
    hexValue (L.reverse.map hexDigit) = Nat.ofDigits 16 L := by
  induction L with
  | nil => simp [hexValue]
  | cons d tl ih =>
    have htl : ∀ x ∈ tl, x < 16 := fun x hx => hL x (List.mem_cons_of_mem _ hx)
    have hd : d < 16 := hL d (List.mem_cons_self _ _)
    rw [List.reverse_cons, List.map_append, List.map_singleton, hexValue_append_singleton,
      ih htl, hexDigitValue_hexDigit hd, Nat.ofDigits_cons]
    ring

theorem map_hexDigit_hexDigitValue (t : GoString) (ht : ∀ c ∈ t, isLowerHexDigit c = true) :
    (t.map hexDigitValue).map hexDigit = t := by
  induction t with
  | nil => rfl
  | cons c tl ih =>
    simp only [List.map_cons]
    rw [hexDigit_hexDigitValue (ht c (List.mem_cons_self _ _)),
      ih (fun x hx => ht x (List.mem_cons_of_mem _ hx))]

theorem hexValue_eq_ofDigits (t : GoString) (ht : ∀ c ∈ t, isLowerHexDigit c = true) :
    hexValue t = Nat.ofDigits 16 (t.map hexDigitValue).reverse := by
  have h := hexValue_reverse_map_hexDigit (t.map hexDigitValue).reverse (by
    intro d hd
    rw [List.mem_reverse, List.mem_map] at hd
    obtain ⟨c, _, rfl⟩ := hd
    exact hexDigitValue_lt)
  rw [List.reverse_reverse, map_hexDigit_hexDigitValue t ht] at h
  exact h

theorem TrimLeft_eq_self (l : GoString) (c : Nat) (h : ∀ x, l.head? = some x → x ≠ c) :
    TrimLeft l c = l := by
  cases l with
  | nil => rfl
  | cons a tl =>
    have : a ≠ c := h a rfl
    simp [TrimLeft, List.dropWhile_cons, this]

theorem head_TrimLeft_ne (l : GoString) (c : Nat) : ∀ x, (TrimLeft l c).head? = some x → x ≠ c := by
  induction l with
  | nil => intro x hx; simp [TrimLeft] at hx
  | cons a tl ih =>
    intro x hx
    by_cases hac : a = c
    · subst hac
      simp only [TrimLeft, List.dropWhile_cons, beq_self_eq_true, if_true] at hx
      exact ih x hx
    · simp only [TrimLeft, List.dropWhile_cons, beq_iff_eq, hac, if_false, List.head?_cons,
        Option.some.injEq] at hx
      exact hx ▸ hac

theorem mem_of_mem_TrimLeft {l : GoString} {c x : Nat} (hx : x ∈ TrimLeft l c) : x ∈ l :=
  (List.dropWhile_sublist _).subset hx

theorem hexValue_TrimLeft (l : GoString) : hexValue (TrimLeft l 48) = hexValue l := by
  induction l with
  | nil => rfl
  | cons a tl ih =>
    by_cases ha : a = 48
    · subst ha
      simp only [TrimLeft, List.dropWhile_cons, beq_self_eq_true, if_true]
      simp only [TrimLeft] at ih
      rw [ih]
      simp [hexValue, hexDigitValue]
    · simp [TrimLeft, List.dropWhile_cons, ha]

/-- The trimmed hexadecimal text of a natural number is its digit string, empty for zero. -/
theorem TrimLeft_formatNatHex (n : Nat) :
    TrimLeft (formatNatHex n) 48 = (Nat.digits 16 n).reverse.map hexDigit := by
  by_cases h0 : n = 0
  · subst h0
    simp [formatNatHex, TrimLeft, List.dropWhile_cons]
  · have hfmt : formatNatHex n = (Nat.digits 16 n).reverse.map hexDigit := by
      simp [formatNatHex, h0, hexDigitsLE_eq_digits n n (le_refl n)]
    rw [hfmt]
    apply TrimLeft_eq_self
    intro x hx
    have hne : Nat.digits 16 n ≠ [] := Nat.digits_ne_nil_iff_ne_zero.mpr h0
    have hlast := Nat.getLast_digit_ne_zero 16 h0
    have hlt : (Nat.digits 16 n).getLast hne < 16 :=
      Nat.digits_lt_base (by decide) (List.getLast_mem hne)
    rw [List.head?_map, List.head?_reverse, List.getLast?_eq_getLast _ hne] at hx
    simp only [Option.map_some', Option.some.injEq] at hx
    subst hx
    unfold hexDigit
    split_ifs <;> omega

/-- A digit string without a leading zero is the trimmed text of the number it denotes. -/
theorem digits_hexValue_of_trimmed (t : GoString) (ht : ∀ c ∈ t, isLowerHexDigit c = true)
    (hhead : ∀ x, t.head? = some x → x ≠ 48) :
    (Nat.digits 16 (hexValue t)).reverse.map hexDigit = t := by
  rw [hexValue_eq_ofDigits t ht, Nat.digits_ofDigits 16 (by decide), List.reverse_reverse,
    map_hexDigit_hexDigitValue t ht]
  · intro d hd
    rw [List.mem_reverse, List.mem_map] at hd
    obtain ⟨c, _, rfl⟩ := hd
    exact hexDigitValue_lt
  · intro hne
    cases t with
    | nil => simp at hne
    | cons a tl =>
      have ha : isLowerHexDigit a = true := ht a (List.mem_cons_self _ _)
      have ha48 : a ≠ 48 := hhead a rfl
      unfold isLowerHexDigit at ha
      simp only [Bool.or_eq_true, Bool.and_eq_true, decide_eq_true_eq] at ha
      simp only [List.map_cons, List.reverse_cons, List.getLast_append_singleton]
      unfold hexDigitValue
      split_ifs <;> omega

/-- The comparison of `checkRevocation` on a natural number: the trimmed texts agree exactly
when the entry is the number the digit string denotes. -/
theorem TrimLeft_formatNatHex_eq_iff (n : Nat) (h : GoString)
    (hh : ∀ c ∈ h, isLowerHexDigit c = true) :
    TrimLeft (formatNatHex n) 48 = TrimLeft h 48 ↔ n = hexValue h := by
  have hcanon : (Nat.digits 16 (hexValue h)).reverse.map hexDigit = TrimLeft h 48 := by
    rw [← hexValue_TrimLeft h]
    exact digits_hexValue_of_trimmed _ (fun c hc => hh c (mem_of_mem_TrimLeft hc))
      (head_TrimLeft_ne h 48)
  rw [TrimLeft_formatNatHex]
  constructor
  · intro heq
    have h1 := hexValue_reverse_map_hexDigit (Nat.digits 16 n)
      (fun d hd => Nat.digits_lt_base (by decide) hd)
    rw [heq, hexValue_TrimLeft, Nat.ofDigits_digits] at h1
    exact h1.symm
  · intro heq
    rw [heq, hcanon]

/-- The comparison of `checkRevocation` on a CRL entry, which may be negative. -/
theorem TrimLeft_sprintfHex_eq_iff (x : Int) (h : GoString)
    (hh : ∀ c ∈ h, isLowerHexDigit c = true) :
    TrimLeft (sprintfHex x) 48 = TrimLeft h 48 ↔ x = (hexValue h : Int) := by
  by_cases hx : x < 0
  · constructor
    · intro heq
      have h45 : (45 : Nat) ∈ TrimLeft h 48 := by
        rw [← heq]
        simp [sprintfHex, hx, TrimLeft, List.dropWhile_cons]
      have := hh 45 (mem_of_mem_TrimLeft h45)
      simp [isLowerHexDigit] at this
    · intro heq
      omega
  · have hnat : x = (x.natAbs : Int) := by omega
    have hfmt : sprintfHex x = formatNatHex x.natAbs := by simp [sprintfHex, hx]
    rw [hfmt, TrimLeft_formatNatHex_eq_iff _ h hh]
    omega

theorem rangeRevoked_eq_true_iff (t : GoString) (l : List RevokedCertificate) :
    rangeRevoked t l = true ↔ ∃ r ∈ l, TrimLeft (sprintfHex r.SerialNumber) 48 = t := by
  induction l with
  | nil => simp [rangeRevoked]
  | cons r rest ih =>
    by_cases hr : TrimLeft (sprintfHex r.SerialNumber) 48 = t
    · simp [rangeRevoked, hr]
    · simp [rangeRevoked, hr, ih]

/-! ## Normalisation -/

theorem ascii_0x : ascii "0x" = [48, 120] := by decide

theorem ascii_0X : ascii "0X" = [48, 88] := by decide

theorem lowerASCII_of_isHexDigit {c : Nat} (hc : isHexDigit c = true) :
    isLowerHexDigit (lowerASCII c) = true ∧ c < 128 ∧
      hexDigitValue (lowerASCII c) = hexDigitValue c := by
  unfold isHexDigit at hc
  simp only [Bool.or_eq_true, Bool.and_eq_true, decide_eq_true_eq] at hc
  unfold isLowerHexDigit lowerASCII hexDigitValue
  simp only [Bool.or_eq_true, Bool.and_eq_true, decide_eq_true_eq]
  split_ifs <;> omega

theorem ToLower_of_ascii (w : World) (s : GoString) (hs : ∀ c ∈ s, c < 128) :
    ToLower w s = s.map lowerASCII := by
  have : s.all (fun c => decide (c < 128)) = true := by
    rw [List.all_eq_true]
    intro c hc
    simpa using hs c hc
  simp [ToLower, this]

theorem TrimPrefix_0x_cons (t : GoString) : TrimPrefix (48 :: 120 :: t) (ascii "0x") = t := by
  simp [TrimPrefix, HasPrefix, ascii_0x]

theorem TrimPrefix_0x_of_lowerHex (t : GoString) (ht : ∀ c ∈ t, isLowerHexDigit c = true) :
    TrimPrefix t (ascii "0x") = t := by
  have hno : HasPrefix t (ascii "0x") = false := by
    rw [ascii_0x]
    match t, ht with
    | [], _ => simp [HasPrefix]
    | [a], _ => simp [HasPrefix]
    | a :: b :: rest, ht =>
      have hb := ht b (by simp)
      have hb120 : b ≠ 120 := by
        intro h
        subst h
        simp [isLowerHexDigit] at hb
      simp [HasPrefix, hb120]
  simp [TrimPrefix, hno]

/-- A hexadecimal digit string of either case, with or without the `0x` marker, normalises
to its lowercase digits. -/
theorem normalise_prefixed (w : World) (pre h : GoString) (hpre : isSerialPrefix pre)
    (hh : ∀ c ∈ h, isHexDigit c = true) : normalise w (pre ++ h) = h.map lowerASCII := by
  have hlow : ∀ c ∈ h.map lowerASCII, isLowerHexDigit c = true := by
    intro c hc
    rw [List.mem_map] at hc
    obtain ⟨a, ha, rfl⟩ := hc
    exact (lowerASCII_of_isHexDigit (hh a ha)).1
  have hascii : ∀ c ∈ h, c < 128 := fun c hc => (lowerASCII_of_isHexDigit (hh c hc)).2.1
  unfold normalise
  rcases hpre with rfl | rfl | rfl
  · rw [List.nil_append, ToLower_of_ascii w h hascii]
    exact TrimPrefix_0x_of_lowerHex _ hlow
  · rw [ascii_0x, ToLower_of_ascii w _ (by
      intro c hc
      simp only [List.cons_append, List.nil_append, List.mem_cons] at hc
      rcases hc with rfl | rfl | hc
      · decide
      · decide
      · exact hascii c hc)]
    simp only [List.cons_append, List.nil_append, List.map_cons]
    exact TrimPrefix_0x_cons _
  · rw [ascii_0X, ToLower_of_ascii w _ (by
      intro c hc
      simp only [List.cons_append, List.nil_append, List.mem_cons] at hc
      rcases hc with rfl | rfl | hc
      · decide
      · decide
      · exact hascii c hc)]
    simp only [List.cons_append, List.nil_append, List.map_cons]
    exact TrimPrefix_0x_cons _

theorem hexValue_map_lowerASCII (h : GoString) (hh : ∀ c ∈ h, isHexDigit c = true) :
    hexValue (h.map lowerASCII) = hexValue h := by
  unfold hexValue
  generalize (0 : Nat) = acc
  induction h generalizing acc with
  | nil => rfl
  | cons a tl ih =>
    simp only [List.map_cons, List.foldl_cons]
    rw [(lowerASCII_of_isHexDigit (hh a (List.mem_cons_self _ _))).2.2]
    exact ih (fun c hc => hh c (List.mem_cons_of_mem _ hc)) _

theorem isLowerHexDigit_map_lowerASCII (h : GoString) (hh : ∀ c ∈ h, isHexDigit c = true) :
    ∀ c ∈ h.map lowerASCII, isLowerHexDigit c = true := by
  intro c hc
  rw [List.mem_map] at hc
  obtain ⟨a, ha, rfl⟩ := hc
  exact (lowerASCII_of_isHexDigit (hh a ha)).1

/-! ## Unfolding `checkRevocation` -/

theorem checkRevocation_short (w : World) (serial baseURL : GoString)
    (h : (normalise w serial).length < 2) :
    checkRevocation w serial baseURL =
      { requests := [], ret := (false, some (.errorf (ascii "serial too short"))) } := by
  unfold normalise at h
  simp [checkRevocation, h]

theorem checkRevocation_fetch_error (w : World) (serial baseURL : GoString) (e : GoError)
    (h : 2 ≤ (normalise w serial).length)
    (hf : (fetchCRL w (partitionURL baseURL (normalise w serial))).ret = .error e) :
    checkRevocation w serial baseURL =
      { requests := [partitionURL baseURL (normalise w serial)], ret := (false, some e) } := by
  unfold normalise partitionURL at *
  have h2 : ¬ (TrimPrefix (ToLower w serial) (ascii "0x")).length < 2 := by omega
  simp only [checkRevocation, h2, if_false]
  rw [hf]
  rfl

theorem checkRevocation_fetch_ok (w : World) (serial baseURL : GoString) (crl : CertificateList)
    (h : 2 ≤ (normalise w serial).length)
    (hf : (fetchCRL w (partitionURL baseURL (normalise w serial))).ret = .ok crl) :
    checkRevocation w serial baseURL =
      { requests := [partitionURL baseURL (normalise w serial)],
        ret := (rangeRevoked (TrimLeft (normalise w serial) 48)
          crl.TBSCertList.RevokedCertificates, none) } := by
  unfold normalise partitionURL at *
  have h2 : ¬ (TrimPrefix (ToLower w serial) (ascii "0x")).length < 2 := by omega
  simp only [checkRevocation, h2, if_false]
  rw [hf]
  rfl

theorem checkRevocation_congr (w : World) (s s' baseURL : GoString)
    (h : normalise w s = normalise w s') :
    checkRevocation w s baseURL = checkRevocation w s' baseURL := by
  unfold normalise at h
  unfold checkRevocation
  rw [h]

theorem checkRevocation_requests_of_long (w : World) (serial baseURL : GoString)
    (h : 2 ≤ (normalise w serial).length) :
    (checkRevocation w serial baseURL).requests
      = [partitionURL baseURL (normalise w serial)] := by
  cases hf : (fetchCRL w (partitionURL baseURL (normalise w serial))).ret with
  | error e => rw [checkRevocation_fetch_error w serial baseURL e h hf]
  | ok crl => rw [checkRevocation_fetch_ok w serial baseURL crl h hf]

theorem isHexDigit_of_map_lowerASCII_eq : ∀ (h' h : GoString),
    h'.map lowerASCII = h.map lowerASCII → (∀ c ∈ h, isHexDigit c = true) →
    ∀ c ∈ h', isHexDigit c = true
  | [], _, _, _ => by simp
  | a' :: t', [], heq, _ => by simp at heq
  | a' :: t', a :: t, heq, hh => by
    simp only [List.map_cons, List.cons.injEq] at heq
    have ha := hh a (List.mem_cons_self _ _)
    have ih := isHexDigit_of_map_lowerASCII_eq t' t heq.2
      (fun c hc => hh c (List.mem_cons_of_mem _ hc))
    have ha' : isHexDigit a' = true := by
      have h1 := heq.1
      unfold isHexDigit at ha ⊢
      simp only [Bool.or_eq_true, Bool.and_eq_true, decide_eq_true_eq] at ha ⊢
      unfold lowerASCII at h1
      split_ifs at h1 <;> omega
    intro c hc
    rcases List.mem_cons.mp hc with rfl | hc
    · exact ha'
    · exact ih c hc

theorem dropWhile_replicate_append (k c : Nat) (l : GoString) :
    (List.replicate k c ++ l).dropWhile (fun b => b == c) = l.dropWhile (fun b => b == c) := by
  induction k with
  | zero => simp
  | succ k ih => simp [List.replicate_succ, List.dropWhile_cons, ih]

theorem TrimRight_append_replicate (baseURL : GoString) (k c : Nat) :
    TrimRight (baseURL ++ List.replicate k c) c = TrimRight baseURL c := by
  unfold TrimRight
  rw [List.reverse_append, List.reverse_replicate, dropWhile_replicate_append]

theorem hexDigit_isLowerHexDigit {d : Nat} (hd : d < 16) : isLowerHexDigit (hexDigit d) = true := by
  unfold isLowerHexDigit hexDigit
  simp only [Bool.or_eq_true, Bool.and_eq_true, decide_eq_true_eq]
  split_ifs <;> omega

theorem isLowerHexDigit_of_TrimLeft (n : GoString)
    (h : ∀ c ∈ TrimLeft n 48, isLowerHexDigit c = true) : ∀ c ∈ n, isLowerHexDigit c = true := by
  induction n with
  | nil => simp
  | cons a t ih =>
    by_cases ha : a = 48
    · subst ha
      simp only [TrimLeft, List.dropWhile_cons, beq_self_eq_true, if_true] at h
      intro c hc
      rcases List.mem_cons.mp hc with rfl | hc
      · decide
      · exact ih h c hc
    · simpa [TrimLeft, List.dropWhile_cons, ha] using h

theorem rangeRevoked_normalise_iff (w : World) (pre h : GoString) (crl : CertificateList)
    (hpre : isSerialPrefix pre) (hh : ∀ c ∈ h, isHexDigit c = true) :
    rangeRevoked (TrimLeft (normalise w (pre ++ h)) 48) crl.TBSCertList.RevokedCertificates
        = true ↔
      ∃ r ∈ crl.TBSCertList.RevokedCertificates, r.SerialNumber = (hexValue h : Int) := by
  rw [rangeRevoked_eq_true_iff, normalise_prefixed w pre h hpre hh]
  have key : ∀ r : RevokedCertificate,
      TrimLeft (sprintfHex r.SerialNumber) 48 = TrimLeft (h.map lowerASCII) 48 ↔
        r.SerialNumber = (hexValue h : Int) := by
    intro r
    rw [TrimLeft_sprintfHex_eq_iff _ _ (isLowerHexDigit_map_lowerASCII h hh),
      hexValue_map_lowerASCII h hh]
  constructor
  · rintro ⟨r, hr, heq⟩
    exact ⟨r, hr, (key r).mp heq⟩
  · rintro ⟨r, hr, heq⟩
    exact ⟨r, hr, (key r).mpr heq⟩

theorem TrimLeft_replicate (k c : Nat) : TrimLeft (List.replicate k c) c = [] := by
  have := dropWhile_replicate_append k c []
  simp [TrimLeft]

theorem fetchCRL_ret_of_body (w : World) (url : GoString) (resp : Response) (body : List Nat)
    (hget : w.httpGet url = .ok resp) (hstatus : resp.StatusCode = 200)
    (hbody : resp.Body = .ok body) :
    (fetchCRL w url).ret =
      w.parseCRL (match w.pemDecode body with
        | some p => p.Bytes
        | none => body) := by
  simp only [fetchCRL, hget, hstatus, hbody, ne_eq, not_true_eq_false, if_false]
  cases w.parseCRL (match w.pemDecode body with
        | some p => p.Bytes
        | none => body) <;> rfl

/-! ## The lookup -/

/-- C1 (completeness): for a hexadecimal serial of either case, with or without the `0x`
marker and with any leading zeros, of normalised length at least 2, when the fetch of its
partition succeeds with a CRL holding an entry equal to the serial's integer value,
`checkRevocation` returns `(true, nil)`; and the trimmed hexadecimal text of any integer
equal to the serial's value equals the trimmed normalised serial. -/
theorem checkRevocation_complete (w : World) (pre h baseURL : GoString) (crl : CertificateList)
    (hpre : isSerialPrefix pre) (hh : ∀ c ∈ h, isHexDigit c = true)
    (hlen : 2 ≤ (normalise w (pre ++ h)).length)
    (hf : (fetchCRL w (partitionURL baseURL (normalise w (pre ++ h)))).ret = .ok crl)
    (hmem : ∃ r ∈ crl.TBSCertList.RevokedCertificates, r.SerialNumber = (hexValue h : Int)) :
    (checkRevocation w (pre ++ h) baseURL).ret = (true, none) ∧
      ∀ x : Int, x = (hexValue h : Int) →
        TrimLeft (sprintfHex x) 48 = TrimLeft (normalise w (pre ++ h)) 48 := by
  have hnorm := normalise_prefixed w pre h hpre hh
  have hcmp : ∀ x : Int, x = (hexValue h : Int) →
      TrimLeft (sprintfHex x) 48 = TrimLeft (normalise w (pre ++ h)) 48 := by
    intro x hx
    rw [hnorm, TrimLeft_sprintfHex_eq_iff x _ (isLowerHexDigit_map_lowerASCII h hh),
      hexValue_map_lowerASCII h hh]
    exact hx
  refine ⟨?_, hcmp⟩
  rw [checkRevocation_fetch_ok w _ baseURL crl hlen hf]
  obtain ⟨r, hr, hval⟩ := hmem
  have : rangeRevoked (TrimLeft (normalise w (pre ++ h)) 48)
      crl.TBSCertList.RevokedCertificates = true :=
    (rangeRevoked_eq_true_iff _ _).mpr ⟨r, hr, hcmp _ hval⟩
  simp [this]

theorem checkRevocation_complete_witness :
    isSerialPrefix (ascii "0X") ∧ 2 ≤ (normalise demoWorld (ascii "0X" ++ ascii "AB12")).length ∧
      (checkRevocation demoWorld (ascii "0X" ++ ascii "AB12") (ascii "http://x/crls")).ret
        = (true, none) :=
  ⟨Or.inr (Or.inr rfl), by decide,
    (checkRevocation_complete demoWorld (ascii "0X") (ascii "AB12") (ascii "http://x/crls") demoCRL
      (Or.inr (Or.inr rfl)) (by decide) (by decide) rfl
      ⟨{ SerialNumber := 0xab12, RevocationTime := 0 }, by decide, by decide⟩).1⟩

/-- C2 (soundness): for a hexadecimal serial of normalised length at least 2, when the fetch
of its partition succeeds and no entry of the CRL equals the serial's integer value,
`checkRevocation` returns `(false, nil)`; and it returns `true` only when the fetch succeeded
with a CRL holding an entry equal to that value. -/
theorem checkRevocation_sound (w : World) (pre h baseURL : GoString)
    (hpre : isSerialPrefix pre) (hh : ∀ c ∈ h, isHexDigit c = true)
    (hlen : 2 ≤ (normalise w (pre ++ h)).length) :
    (∀ crl, (fetchCRL w (partitionURL baseURL (normalise w (pre ++ h)))).ret = .ok crl →
        (∀ r ∈ crl.TBSCertList.RevokedCertificates, r.SerialNumber ≠ (hexValue h : Int)) →
        (checkRevocation w (pre ++ h) baseURL).ret = (false, none)) ∧
      ((checkRevocation w (pre ++ h) baseURL).ret.1 = true →
        ∃ crl, (fetchCRL w (partitionURL baseURL (normalise w (pre ++ h)))).ret = .ok crl ∧
          ∃ r ∈ crl.TBSCertList.RevokedCertificates, r.SerialNumber = (hexValue h : Int)) := by
  have hnorm := normalise_prefixed w pre h hpre hh
  have hiff : ∀ crl : CertificateList,
      rangeRevoked (TrimLeft (normalise w (pre ++ h)) 48) crl.TBSCertList.RevokedCertificates
        = true ↔
      ∃ r ∈ crl.TBSCertList.RevokedCertificates, r.SerialNumber = (hexValue h : Int) := by
    intro crl
    rw [rangeRevoked_eq_true_iff, hnorm]
    constructor
    · rintro ⟨r, hr, heq⟩
      refine ⟨r, hr, ?_⟩
      rw [TrimLeft_sprintfHex_eq_iff _ _ (isLowerHexDigit_map_lowerASCII h hh),
        hexValue_map_lowerASCII h hh] at heq
      exact heq
    · rintro ⟨r, hr, heq⟩
      refine ⟨r, hr, ?_⟩
      rw [TrimLeft_sprintfHex_eq_iff _ _ (isLowerHexDigit_map_lowerASCII h hh),
        hexValue_map_lowerASCII h hh]
      exact heq
  constructor
  · intro crl hf hnone
    rw [checkRevocation_fetch_ok w _ baseURL crl hlen hf]
    have hfalse : rangeRevoked (TrimLeft (normalise w (pre ++ h)) 48)
        crl.TBSCertList.RevokedCertificates = false := by
      rw [Bool.eq_false_iff, Ne, hiff crl]
      rintro ⟨r, hr, heq⟩
      exact hnone r hr heq
    simp [hfalse]
  · intro htrue
    cases hf : (fetchCRL w (partitionURL baseURL (normalise w (pre ++ h)))).ret with
    | error e =>
      rw [checkRevocation_fetch_error w _ baseURL e hlen hf] at htrue
      simp at htrue
    | ok crl =>
      rw [checkRevocation_fetch_ok w _ baseURL crl hlen hf] at htrue
      exact ⟨crl, rfl, (hiff crl).mp htrue⟩

theorem checkRevocation_sound_witness :
    2 ≤ (normalise demoWorld ([] ++ ascii "ab34")).length ∧
      (checkRevocation demoWorld ([] ++ ascii "ab34") (ascii "http://x/crls")).ret
        = (false, none) :=
  ⟨by decide,
    (checkRevocation_sound demoWorld [] (ascii "ab34") (ascii "http://x/crls")
      (Or.inl rfl) (by decide) (by decide)).1 demoCRL rfl (by decide)⟩

/-- C3: a response whose status code is not 200 makes `fetchCRL` return the error
`failed to fetch CRL: <status text>` and no CRL, whatever the body, and `checkRevocation`
of any serial routed to that URL returns that error, not `(false, nil)`. -/
theorem fetchCRL_status_not_ok (w : World) (url : GoString) (resp : Response)
    (hget : w.httpGet url = .ok resp) (hstatus : resp.StatusCode ≠ 200) :
    (fetchCRL w url).ret = .error (.errorf (ascii "failed to fetch CRL: " ++ resp.Status)) ∧
      ∀ serial baseURL, 2 ≤ (normalise w serial).length →
        partitionURL baseURL (normalise w serial) = url →
        (checkRevocation w serial baseURL).ret
          = (false, some (.errorf (ascii "failed to fetch CRL: " ++ resp.Status))) ∧
        (checkRevocation w serial baseURL).ret ≠ (false, none) := by
  have hfetch : (fetchCRL w url).ret
      = .error (.errorf (ascii "failed to fetch CRL: " ++ resp.Status)) := by
    simp [fetchCRL, hget, hstatus]
  refine ⟨hfetch, ?_⟩
  intro serial baseURL hlen hurl
  rw [← hurl] at hfetch
  rw [checkRevocation_fetch_error w serial baseURL _ hlen hfetch]
  simp

theorem fetchCRL_status_not_ok_witness :
    (404 : Int) ≠ 200 ∧
      (checkRevocation demoWorld (ascii "cd12") (ascii "http://x/crls")).ret
        = (false, some (.errorf (ascii "failed to fetch CRL: 404 Not Found"))) :=
  ⟨by decide,
    ((fetchCRL_status_not_ok demoWorld (ascii "http://x/crls/cd.crl")
      { StatusCode := 404, Status := ascii "404 Not Found",
        Body := .ok (ascii "404 page not found\n") } rfl (by decide)).2
      (ascii "cd12") (ascii "http://x/crls") (by decide) (by decide)).1⟩

/-- C4: a serial whose normalised form is shorter than 2 bytes is answered
`(false, "serial too short")` with no `http.Get` issued, and the answer is the same under any
transport and any decoders. -/
theorem checkRevocation_too_short (w : World) (serial baseURL : GoString)
    (h : (normalise w serial).length < 2) :
    checkRevocation w serial baseURL =
        { requests := [], ret := (false, some (.errorf (ascii "serial too short"))) } ∧
      ∀ (get : GoString → Except GoError Response) (pemd : List Nat → Option Block)
        (parse : List Nat → Except GoError CertificateList),
        checkRevocation { w with httpGet := get, pemDecode := pemd, parseCRL := parse }
            serial baseURL =
          { requests := [], ret := (false, some (.errorf (ascii "serial too short"))) } :=
  ⟨checkRevocation_short w serial baseURL h,
    fun get pemd parse =>
      checkRevocation_short { w with httpGet := get, pemDecode := pemd, parseCRL := parse }
        serial baseURL h⟩

theorem checkRevocation_too_short_witness :
    (normalise demoWorld (ascii "a")).length < 2 ∧
      checkRevocation demoWorld (ascii "a") (ascii "http://x/crls") =
        { requests := [], ret := (false, some (.errorf (ascii "serial too short"))) } :=
  ⟨by decide, (checkRevocation_too_short demoWorld (ascii "a") (ascii "http://x/crls")
    (by decide)).1⟩

/-- C5 (case and marker invariance): for a hexadecimal digit string `h` of length at least 2,
any case variant `h'` of it, and any of the markers none, `0x`, `0X` in front of either,
`checkRevocation` issues the same single request, to the partition of the lowercase digits,
and returns the identical result. -/
theorem checkRevocation_case_marker_invariant (w : World) (h h' pre pre' baseURL : GoString)
    (hh : ∀ c ∈ h, isHexDigit c = true) (hlen : 2 ≤ h.length)
    (hvar : h'.map lowerASCII = h.map lowerASCII)
    (hpre : isSerialPrefix pre) (hpre' : isSerialPrefix pre') :
    checkRevocation w (pre' ++ h') baseURL = checkRevocation w (pre ++ h) baseURL ∧
      (checkRevocation w (pre ++ h) baseURL).requests
        = [TrimRight baseURL 47 ++ ascii "/" ++ (h.map lowerASCII).take 2 ++ ascii ".crl"] := by
  have hn := normalise_prefixed w pre h hpre hh
  have hn' := normalise_prefixed w pre' h' hpre'
    (isHexDigit_of_map_lowerASCII_eq h' h hvar hh)
  refine ⟨checkRevocation_congr w _ _ baseURL (by rw [hn, hn', hvar]), ?_⟩
  have hl : 2 ≤ (normalise w (pre ++ h)).length := by
    rw [hn, List.length_map]
    exact hlen
  rw [checkRevocation_requests_of_long w _ baseURL hl, hn]
  rfl

theorem checkRevocation_case_marker_invariant_witness :
    (ascii "AB12").map lowerASCII = (ascii "ab12").map lowerASCII ∧
      checkRevocation demoWorld ([] ++ ascii "AB12") (ascii "http://x/crls")
        = checkRevocation demoWorld (ascii "0x" ++ ascii "ab12") (ascii "http://x/crls") ∧
      (checkRevocation demoWorld (ascii "0x" ++ ascii "ab12") (ascii "http://x/crls")).requests
        = [ascii "http://x/crls/ab.crl"] :=
  ⟨by decide,
    checkRevocation_case_marker_invariant demoWorld (ascii "ab12") (ascii "AB12") (ascii "0x") []
      (ascii "http://x/crls") (by decide) (by decide) (by decide) (Or.inr (Or.inl rfl))
      (Or.inl rfl)⟩

/-- C6 (partition URL): for a serial whose normalised form `n` has at least 2 bytes,
`checkRevocation` issues exactly one request, to the base URL without its trailing `/`
bytes, then `/`, the first two bytes of `n` (leading zeros kept), then `.crl`; and any
number of `/` appended to the base URL leaves the request unchanged. -/
theorem checkRevocation_partition_url (w : World) (serial baseURL : GoString)
    (h : 2 ≤ (normalise w serial).length) :
    (checkRevocation w serial baseURL).requests
        = [TrimRight baseURL 47 ++ ascii "/" ++ (normalise w serial).take 2 ++ ascii ".crl"] ∧
      ∀ k : Nat, (checkRevocation w serial (baseURL ++ List.replicate k 47)).requests
        = (checkRevocation w serial baseURL).requests := by
  have h1 := checkRevocation_requests_of_long w serial baseURL h
  refine ⟨h1, ?_⟩
  intro k
  rw [h1, checkRevocation_requests_of_long w serial _ h]
  unfold partitionURL
  rw [TrimRight_append_replicate]

theorem checkRevocation_partition_url_witness :
    2 ≤ (normalise demoWorld (ascii "0012")).length ∧
      (checkRevocation demoWorld (ascii "0012") (ascii "http://x/crls//")).requests
        = [ascii "http://x/crls/00.crl"] :=
  ⟨by decide,
    (checkRevocation_partition_url demoWorld (ascii "0012") (ascii "http://x/crls//")
      (by decide)).1.trans (by decide)⟩

/-- C7 (errors propagate): for a serial of normalised length at least 2, an error `e`
returned by `fetchCRL` for the partition URL makes `checkRevocation` return exactly
`(false, e)`; and in every case, for any serial and base URL and with or without a failing
fetch, a non-nil error from `checkRevocation` comes with the boolean `false`. -/
theorem checkRevocation_error_unchanged (w : World) :
    (∀ (serial baseURL : GoString) (e : GoError), 2 ≤ (normalise w serial).length →
        (fetchCRL w (partitionURL baseURL (normalise w serial))).ret = .error e →
        (checkRevocation w serial baseURL).ret = (false, some e)) ∧
      ∀ (serial baseURL : GoString) (e : GoError),
        (checkRevocation w serial baseURL).ret.2 = some e →
        (checkRevocation w serial baseURL).ret.1 = false := by
  constructor
  · intro serial baseURL e h hf
    rw [checkRevocation_fetch_error w serial baseURL e h hf]
  · intro serial baseURL e he
    by_cases hl : (normalise w serial).length < 2
    · rw [checkRevocation_short w serial baseURL hl]
    · have hl2 : 2 ≤ (normalise w serial).length := by omega
      cases hf : (fetchCRL w (partitionURL baseURL (normalise w serial))).ret with
      | error e2 => rw [checkRevocation_fetch_error w serial baseURL e2 hl2 hf]
      | ok crl =>
        rw [checkRevocation_fetch_ok w serial baseURL crl hl2 hf] at he
        simp at he

theorem checkRevocation_error_unchanged_witness :
    (2 ≤ (normalise demoWorld (ascii "ab12")).length ∧
      (checkRevocation demoWorld (ascii "ab12") (ascii "http://x/other")).ret
        = (false, some (.errorf (ascii "failed to fetch CRL: 404 Not Found")))) ∧
      ((checkRevocation demoWorld (ascii "a") (ascii "http://x/crls")).ret.2
        = some (.errorf (ascii "serial too short")) ∧
      (checkRevocation demoWorld (ascii "a") (ascii "http://x/crls")).ret.1 = false) :=
  ⟨⟨by decide,
    (checkRevocation_error_unchanged demoWorld).1 (ascii "ab12") (ascii "http://x/other")
      (.errorf (ascii "failed to fetch CRL: 404 Not Found")) (by decide) rfl⟩,
    ⟨by decide,
      (checkRevocation_error_unchanged demoWorld).2 (ascii "a") (ascii "http://x/crls")
        (.errorf (ascii "serial too short")) (by decide)⟩⟩

/-- C10: when the partition decodes to a CRL whose entries are all non-negative and
`checkRevocation` returns `(true, nil)`, every byte of the normalised serial is one of
`0`..`9`, `a`..`f`. -/
theorem checkRevocation_true_only_hex (w : World) (serial baseURL : GoString)
    (crl : CertificateList)
    (hf : (fetchCRL w (partitionURL baseURL (normalise w serial))).ret = .ok crl)
    (hnn : ∀ r ∈ crl.TBSCertList.RevokedCertificates, 0 ≤ r.SerialNumber)
    (hret : (checkRevocation w serial baseURL).ret = (true, none)) :
    ∀ c ∈ normalise w serial, isLowerHexDigit c = true := by
  by_cases hl : (normalise w serial).length < 2
  · rw [checkRevocation_short w serial baseURL hl] at hret
    simp at hret
  · have hl2 : 2 ≤ (normalise w serial).length := by omega
    rw [checkRevocation_fetch_ok w serial baseURL crl hl2 hf] at hret
    have htrue : rangeRevoked (TrimLeft (normalise w serial) 48)
        crl.TBSCertList.RevokedCertificates = true := by
      simpa using hret
    obtain ⟨r, hr, heq⟩ := (rangeRevoked_eq_true_iff _ _).mp htrue
    have hx : ¬ r.SerialNumber < 0 := by
      have := hnn r hr
      omega
    have hfmt : sprintfHex r.SerialNumber = formatNatHex r.SerialNumber.natAbs := by
      simp [sprintfHex, hx]
    rw [hfmt, TrimLeft_formatNatHex] at heq
    apply isLowerHexDigit_of_TrimLeft
    intro c hc
    rw [← heq, List.mem_map] at hc
    obtain ⟨d, hd, rfl⟩ := hc
    rw [List.mem_reverse] at hd
    exact hexDigit_isLowerHexDigit (Nat.digits_lt_base (by decide) hd)

theorem checkRevocation_true_only_hex_witness :
    (checkRevocation demoWorld (ascii "AB12") (ascii "http://x/crls")).ret = (true, none) ∧
      ∀ c ∈ normalise demoWorld (ascii "AB12"), isLowerHexDigit c = true :=
  ⟨by decide,
    checkRevocation_true_only_hex demoWorld (ascii "AB12") (ascii "http://x/crls") demoCRL rfl
      (by decide) (by decide)⟩

/-! ## Format tolerance of `fetchCRL` -/

set_option maxRecDepth 100000

/-- C8, as stated, fails: `armouredBody` PEM-decodes to `nestedDER`, yet `fetchCRL` decodes
the armoured body to the CRL and answers the raw body `nestedDER` with a decode error,
because `pem.Decode` is applied to the raw body as well and finds a block inside it. -/
theorem fetchCRL_pem_vs_raw_differ :
    nestedWorld.pemDecode armouredBody = some { Bytes := nestedDER } ∧
      (fetchCRL nestedWorld (ascii "http://pem/ab.crl")).ret = .ok demoCRL ∧
      (fetchCRL nestedWorld (ascii "http://der/ab.crl")).ret
        = .error (.lib (ascii "asn1: syntax error: sequence truncated")) ∧
      (fetchCRL nestedWorld (ascii "http://pem/ab.crl")).ret
        ≠ (fetchCRL nestedWorld (ascii "http://der/ab.crl")).ret := by
  have h1 : (fetchCRL nestedWorld (ascii "http://pem/ab.crl")).ret = .ok demoCRL := rfl
  have h2 : (fetchCRL nestedWorld (ascii "http://der/ab.crl")).ret
      = .error (.lib (ascii "asn1: syntax error: sequence truncated")) := rfl
  refine ⟨rfl, h1, h2, ?_⟩
  rw [h1, h2]
  intro h
  cases h

/-- C8, amended: when a 200 body `b` PEM-decodes to a block with payload `d` and `d` itself
does not PEM-decode to a block, `fetchCRL` on body `b` returns what it returns on the raw
body `d`, namely the CRL decoder's result on `d`; and, with no condition on any other
response, every 200 body that does not PEM-decode to a block reaches the CRL decoder
unchanged. -/
theorem fetchCRL_pem_tolerant (w : World) :
    (∀ (u1 u2 : GoString) (r1 r2 : Response) (b : List Nat) (p : Block),
        w.httpGet u1 = .ok r1 → r1.StatusCode = 200 → r1.Body = .ok b →
        w.httpGet u2 = .ok r2 → r2.StatusCode = 200 → r2.Body = .ok p.Bytes →
        w.pemDecode b = some p → w.pemDecode p.Bytes = none →
        (fetchCRL w u1).ret = (fetchCRL w u2).ret ∧
          (fetchCRL w u1).ret = w.parseCRL p.Bytes) ∧
      ∀ (u : GoString) (r : Response) (body : List Nat), w.httpGet u = .ok r →
        r.StatusCode = 200 → r.Body = .ok body → w.pemDecode body = none →
        (fetchCRL w u).ret = w.parseCRL body := by
  constructor
  · intro u1 u2 r1 r2 b p hget1 hs1 hb1 hget2 hs2 hb2 hpem hraw
    have e1 := fetchCRL_ret_of_body w u1 r1 b hget1 hs1 hb1
    have e2 := fetchCRL_ret_of_body w u2 r2 p.Bytes hget2 hs2 hb2
    rw [hpem] at e1
    rw [hraw] at e2
    exact ⟨e1.trans e2.symm, e1⟩
  · intro u r body hget hs hb hnone
    have e := fetchCRL_ret_of_body w u r body hget hs hb
    rw [hnone] at e
    exact e

theorem fetchCRL_pem_tolerant_witness :
    (demoWorld.pemDecode demoArmoured = some { Bytes := demoBody } ∧
      demoWorld.pemDecode demoBody = none ∧
      (fetchCRL demoWorld (ascii "http://pem/crls/ab.crl")).ret
        = (fetchCRL demoWorld (ascii "http://x/crls/ab.crl")).ret) ∧
      (fetchCRL demoWorld (ascii "http://x/crls/ab.crl")).ret = demoWorld.parseCRL demoBody :=
  ⟨⟨rfl, rfl,
    ((fetchCRL_pem_tolerant demoWorld).1 (ascii "http://pem/crls/ab.crl")
      (ascii "http://x/crls/ab.crl")
      { StatusCode := 200, Status := ascii "200 OK", Body := .ok demoArmoured }
      { StatusCode := 200, Status := ascii "200 OK", Body := .ok demoBody }
      demoArmoured { Bytes := demoBody } rfl rfl rfl rfl rfl rfl rfl rfl).1⟩,
    (fetchCRL_pem_tolerant demoWorld).2 (ascii "http://x/crls/ab.crl")
      { StatusCode := 200, Status := ascii "200 OK", Body := .ok demoBody }
      demoBody rfl rfl rfl rfl⟩

/-! ## All-zero serials -/

/-- C9, as stated, fails at one zero digit: the serials `0` and `0x0` normalise to a single
byte and are answered `serial too short` without a request. -/
theorem checkRevocation_single_zero_rejected :
    (checkRevocation demoWorld (ascii "0") (ascii "http://x/crls")).ret
        = (false, some (.errorf (ascii "serial too short"))) ∧
      (checkRevocation demoWorld (ascii "0") (ascii "http://x/crls")).requests = [] ∧
      (checkRevocation demoWorld (ascii "0x0") (ascii "http://x/crls")).ret
        = (false, some (.errorf (ascii "serial too short"))) := by
  decide

/-- C9, amended to two or more zero digits: for a serial of `k ≥ 2` digits `0`, with or
without the `0x` marker, the canonical form is the empty string, as is that of the entry
value 0 (rendered `0`); `checkRevocation` passes the length check and issues its one request
to partition key `00`; and when that partition decodes, the result is `(true, nil)` if it
holds an entry of value 0 and `(false, nil)` otherwise. -/
theorem checkRevocation_all_zero (w : World) (pre baseURL : GoString) (k : Nat)
    (hpre : isSerialPrefix pre) (hk : 2 ≤ k) :
    TrimLeft (normalise w (pre ++ List.replicate k 48)) 48 = [] ∧
      TrimLeft (sprintfHex 0) 48 = [] ∧
      (checkRevocation w (pre ++ List.replicate k 48) baseURL).requests
        = [partitionURL baseURL (ascii "00")] ∧
      ∀ crl, (fetchCRL w (partitionURL baseURL (ascii "00"))).ret = .ok crl →
        ((∃ r ∈ crl.TBSCertList.RevokedCertificates, r.SerialNumber = 0) →
          (checkRevocation w (pre ++ List.replicate k 48) baseURL).ret = (true, none)) ∧
        ((¬ ∃ r ∈ crl.TBSCertList.RevokedCertificates, r.SerialNumber = 0) →
          (checkRevocation w (pre ++ List.replicate k 48) baseURL).ret = (false, none)) := by
  have hh : ∀ c ∈ List.replicate k 48, isHexDigit c = true := by
    intro c hc
    rw [List.eq_of_mem_replicate hc]
    decide
  have hn : normalise w (pre ++ List.replicate k 48) = List.replicate k 48 := by
    rw [normalise_prefixed w pre _ hpre hh, List.map_replicate]
    rfl
  have hlen : 2 ≤ (normalise w (pre ++ List.replicate k 48)).length := by
    rw [hn, List.length_replicate]
    exact hk
  have hurl : partitionURL baseURL (normalise w (pre ++ List.replicate k 48))
      = partitionURL baseURL (ascii "00") := by
    obtain ⟨j, rfl⟩ : ∃ j, k = j + 2 := ⟨k - 2, by omega⟩
    rw [hn]
    rfl
  have hval : (hexValue (List.replicate k 48) : Int) = 0 := by
    rw [← hexValue_TrimLeft, TrimLeft_replicate]
    rfl
  refine ⟨by rw [hn, TrimLeft_replicate], by decide, ?_, ?_⟩
  · rw [checkRevocation_requests_of_long w _ baseURL hlen, hurl]
  · intro crl hf
    rw [← hurl] at hf
    have hiff := rangeRevoked_normalise_iff w pre (List.replicate k 48) crl hpre hh
    rw [hval] at hiff
    rw [checkRevocation_fetch_ok w _ baseURL crl hlen hf]
    constructor
    · intro hex
      rw [hiff.mpr hex]
    · intro hno
      have hfalse : rangeRevoked (TrimLeft (normalise w (pre ++ List.replicate k 48)) 48)
          crl.TBSCertList.RevokedCertificates = false := by
        rw [Bool.eq_false_iff, Ne, hiff]
        exact hno
      rw [hfalse]

theorem checkRevocation_all_zero_witness :
    isSerialPrefix (ascii "0x") ∧ 2 ≤ 2 ∧
      (checkRevocation demoWorld (ascii "0x" ++ List.replicate 2 48)
        (ascii "http://x/crls")).requests = [ascii "http://x/crls/00.crl"] :=
  ⟨Or.inr (Or.inl rfl), le_refl 2,
    (checkRevocation_all_zero demoWorld (ascii "0x") (ascii "http://x/crls") 2
      (Or.inr (Or.inl rfl)) (le_refl 2)).2.2.1.trans (by decide)⟩

end CrlPartitioning
